import Mathlib

/-!
Verification of the kanban board application (`src/App.tsx`).

The application keeps a board (id, title, ordered lists), where each list
holds an ordered sequence of cards.  The state-mutation layer (`addCard`,
`deleteCard`, `moveCard`, `addList`, `updateListTitle`, `deleteList`), the
caller-side input guards (`handleAddCard`, `saveTitle`), and the
localStorage persistence round trip are embedded below as pure Lean
functions, translated directly from the React source.  The UI state setters
(`setBoard prev => ...`) become functions `Board → Board`; the current time
(`Date.now()` / `new Date()`) becomes an explicit `now : Int` argument
(milliseconds since the epoch, which is exactly what a JavaScript `Date`
stores).
-/

/-- A card: `interface Card` from the source (`createdAt : Date` is a
millisecond count in JavaScript, embedded as `Int`). -/
structure Card where
  id : String
  title : String
  description : Option String
  createdAt : Int
deriving DecidableEq

/-- A list of cards: `interface List` from the source.  Named `BList`
because `List` is taken by Lean's built-in list type. -/
structure BList where
  id : String
  title : String
  cards : List Card
deriving DecidableEq

/-- The board: `interface Board` from the source. -/
structure Board where
  id : String
  title : String
  lists : List BList
deriving DecidableEq

/-- The initial board passed to `useState<Board>` (source lines 24-44):
three empty lists. -/
def initialBoard : Board :=
  { id := "1"
  , title := "Mi Tablero de Trabajo"
  , lists :=
      [ { id := "1", title := "Por Hacer", cards := [] }
      , { id := "2", title := "En Progreso", cards := [] }
      , { id := "3", title := "Completado", cards := [] } ] }

/-- JavaScript `String.prototype.trim`: drop whitespace from both ends. -/
def jsTrim (s : String) : String :=
  String.mk (((s.data.dropWhile Char.isWhitespace).reverse.dropWhile
    Char.isWhitespace).reverse)

/-- Store operation `addCard(listId, title)` (source lines 72-87).  A new
card with id `Date.now().toString()` and creation time `new Date()` is
appended to the list whose id matches `listId`; no guard on the title is
performed here (the guard lives in the caller, `handleAddCard`). -/
def addCard (listId title : String) (now : Int) (b : Board) : Board :=
  let newCard : Card :=
    { id := toString now, title := title, description := none, createdAt := now }
  { b with lists := b.lists.map fun list =>
      if list.id = listId then { list with cards := list.cards ++ [newCard] }
      else list }

/-- Store operation `deleteCard(listId, cardId)` (source lines 89-98). -/
def deleteCard (listId cardId : String) (b : Board) : Board :=
  { b with lists := b.lists.map fun list =>
      if list.id = listId then
        { list with cards := list.cards.filter fun card => card.id != cardId }
      else list }

/-- Store operation `moveCard(cardId, sourceListId, targetListId)` (source
lines 100-122).  No-op when source and target coincide; otherwise the card
is looked up in the first list whose id is `sourceListId`; if found it is
filtered out of the source list and appended to the target list. -/
def moveCard (cardId sourceListId targetListId : String) (b : Board) : Board :=
  if sourceListId = targetListId then b
  else
    match (b.lists.find? fun list => list.id == sourceListId).bind
        (fun sourceList => sourceList.cards.find? fun c => c.id == cardId) with
    | none => b
    | some card =>
      { b with lists := b.lists.map fun list =>
          if list.id = sourceListId then
            { list with cards := list.cards.filter fun c => c.id != cardId }
          else if list.id = targetListId then
            { list with cards := list.cards ++ [card] }
          else list }

/-- Store operation `addList` (source lines 124-140): rejects a title whose
trim is empty, otherwise appends a fresh list with id
`Date.now().toString()`. -/
def addList (title : String) (now : Int) (b : Board) : Board :=
  if jsTrim title = "" then b
  else
    { b with lists := b.lists ++ [{ id := toString now, title := title, cards := [] }] }

/-- Store operation `updateListTitle(listId, newTitle)` (source lines
142-149).  The title of the matching list is replaced unconditionally; no
guard on `newTitle` is performed here (the guard lives in the caller,
`saveTitle`). -/
def updateListTitle (listId newTitle : String) (b : Board) : Board :=
  { b with lists := b.lists.map fun list =>
      if list.id = listId then { list with title := newTitle } else list }

/-- Store operation `deleteList(listId)` (source lines 151-156). -/
def deleteList (listId : String) (b : Board) : Board :=
  { b with lists := b.lists.filter fun list => list.id != listId }

/-- Caller-side guard `handleAddCard` (source lines 289-294): calls the
store's `addCard` only when the trimmed title is non-empty. -/
def handleAddCard (listId title : String) (now : Int) (b : Board) : Board :=
  if jsTrim title = "" then b else addCard listId title now b

/-- Caller-side guard `saveTitle` (source lines 302-307): calls the store's
`updateListTitle` only when the trimmed edited title is non-empty. -/
def saveTitle (listId editingListTitle : String) (b : Board) : Board :=
  if jsTrim editingListTitle = "" then b
  else updateListTitle listId editingListTitle b

/-- The ids of the board's lists, in order. -/
def listIds (b : Board) : List String := b.lists.map BList.id

/-- The ids of all cards on the board, in list order. -/
def cardIds (b : Board) : List String :=
  b.lists.flatMap fun l => l.cards.map Card.id

/-- Well-formedness from the spec's data model: list ids are unique on the
board, and card ids are unique across the whole board. -/
def WF (b : Board) : Prop := (listIds b).Nodup ∧ (cardIds b).Nodup

/-- One store operation together with its inputs (the `now` arguments stand
for the value of `Date.now()` when the operation runs). -/
inductive Op where
  | addCard (listId title : String) (now : Int)
  | deleteCard (listId cardId : String)
  | moveCard (cardId sourceListId targetListId : String)
  | addList (title : String) (now : Int)
  | updateListTitle (listId newTitle : String)
  | deleteList (listId : String)

/-- Run one store operation on a board. -/
def applyOp (o : Op) (b : Board) : Board :=
  match o with
  | .addCard listId title now => addCard listId title now b
  | .deleteCard listId cardId => deleteCard listId cardId b
  | .moveCard cardId src tgt => moveCard cardId src tgt b
  | .addList title now => addList title now b
  | .updateListTitle listId newTitle => updateListTitle listId newTitle b
  | .deleteList listId => deleteList listId b

/-- Run a sequence of store operations on a board. -/
def applyOps (ops : List Op) (b : Board) : Board :=
  ops.foldl (fun b o => applyOp o b) b

/-- The id an operation generates is fresh for the board it runs on: the
clock value stringified by `addCard` is no existing card id, and the one
stringified by `addList` is no existing list id.  The other operations
generate no ids. -/
def Fresh (o : Op) (b : Board) : Prop :=
  match o with
  | .addCard _ _ now => toString now ∉ cardIds b
  | .addList _ now => toString now ∉ listIds b
  | _ => True

/-- Every operation of the sequence generates a fresh id for the board it
actually runs on. -/
def FreshAlong : List Op → Board → Prop
  | [], _ => True
  | o :: rest, b => Fresh o b ∧ FreshAlong rest (applyOp o b)

/-- A JSON value, the shape of what `JSON.stringify` writes to and
`JSON.parse` reads from localStorage.  The string-level transport
(`stringify` of a value followed by `parse` of the resulting text) is the
identity on JSON values, so the persistence round trip is stated at this
level.  Modelled from the spec: `JSON.stringify` renders a `Date` as
ISO-8601 text at millisecond resolution and `new Date(text)` reconstitutes
exactly the same millisecond count; since that encoding is lossless at
millisecond resolution, the serialized timestamp is represented here by its
millisecond count (`Json.num`). -/
inductive Json where
  | null : Json
  | bool (b : Bool) : Json
  | num (n : Int) : Json
  | str (s : String) : Json
  | arr (elems : List Json) : Json
  | obj (fields : List (String × Json)) : Json

/-- What `JSON.stringify` produces for one card: `description` is omitted
when absent (stringify drops `undefined` properties), and `createdAt` is
the serialized timestamp. -/
def cardToJson (c : Card) : Json :=
  .obj ([("id", .str c.id), ("title", .str c.title)] ++
    (match c.description with
     | none => []
     | some d => [("description", .str d)]) ++
    [("createdAt", .num c.createdAt)])

/-- What `JSON.stringify` produces for one list. -/
def listToJson (l : BList) : Json :=
  .obj [("id", .str l.id), ("title", .str l.title),
    ("cards", .arr (l.cards.map cardToJson))]

/-- What `JSON.stringify` produces for the board (the value saved by the
effect at source lines 68-70). -/
def boardToJson (b : Board) : Json :=
  .obj [("id", .str b.id), ("title", .str b.title),
    ("lists", .arr (b.lists.map listToJson))]

/-- Property lookup on a parsed JSON object. -/
def getField (fields : List (String × Json)) (key : String) : Option Json :=
  (fields.find? fun p => p.1 == key).map Prod.snd

/-- Typed reading of one card from a parsed snapshot, with `createdAt`
revived the way the load effect does (`card.createdAt = new
Date(card.createdAt)`, source line 60).  The `error` results mark the
boundary of the typed model, not exceptions of the program: the load
effect never inspects these fields — it assigns the parsed object
wholesale, and `new Date` of garbage is merely an invalid date — so a
snapshot rejected here still loads in the program.  The program's actual
throw conditions are captured by `cardRevivable` below and used in
`loadBoard`. -/
def decodeCard (j : Json) : Except String Card :=
  match j with
  | .obj fields =>
    match getField fields "id", getField fields "title",
        getField fields "createdAt" with
    | some (.str i), some (.str t), some (.num ts) =>
      match getField fields "description" with
      | none => .ok { id := i, title := t, description := none, createdAt := ts }
      | some (.str d) => .ok { id := i, title := t, description := some d, createdAt := ts }
      | some _ => .error "untyped card description"
    | _, _, _ => .error "untyped card fields"
  | _ => .error "untyped card"

/-- Decode the cards of one list in order, failing on the first bad card. -/
def decodeCards : List Json → Except String (List Card)
  | [] => .ok []
  | j :: rest =>
    match decodeCard j, decodeCards rest with
    | .ok c, .ok cs => .ok (c :: cs)
    | .error e, _ => .error e
    | _, .error e => .error e

/-- Typed reading of one list from a parsed snapshot.  Of its requirements
only the `cards` array corresponds to a program throw
(`list.cards.forEach`, source line 59); the id/title requirements are the
typed model's boundary — the program accepts such lists without checking
(see `listRevivable` for its actual throw conditions). -/
def decodeList (j : Json) : Except String BList :=
  match j with
  | .obj fields =>
    match getField fields "id", getField fields "title",
        getField fields "cards" with
    | some (.str i), some (.str t), some (.arr cardsJson) =>
      match decodeCards cardsJson with
      | .ok cs => .ok { id := i, title := t, cards := cs }
      | .error e => .error e
    | _, _, _ => .error "untyped list fields"
  | _ => .error "untyped list"

/-- Decode the lists of the board in order. -/
def decodeLists : List Json → Except String (List BList)
  | [] => .ok []
  | j :: rest =>
    match decodeList j, decodeLists rest with
    | .ok l, .ok ls => .ok (l :: ls)
    | .error e, _ => .error e
    | _, .error e => .error e

/-- Typed reading of the whole stored snapshot (used to state the
persistence round trip).  Of its requirements only the `lists` array
corresponds to a program throw (`parsedBoard.lists.forEach`, source line
58); the board id/title requirements are the typed model's boundary — the
program assigns the parsed object into its state without checking them, so
a snapshot such as one consisting only of an empty `lists` array loads in
the program even though it is rejected here (see `revivable` for the
program's actual throw conditions, and `loadBoard` for how the two are
combined). -/
def decodeStoredBoard (j : Json) : Except String Board :=
  match j with
  | .obj fields =>
    match getField fields "id", getField fields "title",
        getField fields "lists" with
    | some (.str i), some (.str t), some (.arr listsJson) =>
      match decodeLists listsJson with
      | .ok ls => .ok { id := i, title := t, lists := ls }
      | .error e => .error e
    | _, _, _ => .error "untyped board fields"
  | _ => .error "untyped board"

/-- Skip JSON insignificant whitespace. -/
def skipWs (cs : List Char) : List Char :=
  cs.dropWhile fun c => c == ' ' || c == '\t' || c == '\n' || c == '\r'

/-- Parse the body of a JSON string literal after the opening quote,
handling the common escapes (the rare `\b`, `\f` and `\uXXXX` forms are not
modelled and make parsing fail). -/
def parseStringBody (fuel : Nat) (cs : List Char) (acc : List Char) :
    Option (String × List Char) :=
  match fuel with
  | 0 => none
  | fuel + 1 =>
    match cs with
    | [] => none
    | c :: rest =>
      if c == '"' then some (String.mk acc.reverse, rest)
      else if c == '\\' then
        match rest with
        | [] => none
        | e :: rest2 =>
          if e == '"' then parseStringBody fuel rest2 ('"' :: acc)
          else if e == '\\' then parseStringBody fuel rest2 ('\\' :: acc)
          else if e == '/' then parseStringBody fuel rest2 ('/' :: acc)
          else if e == 'n' then parseStringBody fuel rest2 ('\n' :: acc)
          else if e == 't' then parseStringBody fuel rest2 ('\t' :: acc)
          else if e == 'r' then parseStringBody fuel rest2 ('\r' :: acc)
          else none
      else parseStringBody fuel rest (c :: acc)

/-- Parse a nonempty run of decimal digits. -/
def parseNat (cs : List Char) : Option (Nat × List Char) :=
  match cs.span (fun c => c.isDigit) with
  | ([], _) => none
  | (ds, rest) => some (ds.foldl (fun n c => n * 10 + (c.toNat - 48)) 0, rest)

mutual

/-- Recursive-descent JSON value parser (integer numbers only; the board
snapshot holds only strings, integers, arrays and objects). -/
def parseValue (fuel : Nat) (cs : List Char) : Option (Json × List Char) :=
  match fuel with
  | 0 => none
  | fuel + 1 =>
    match skipWs cs with
    | [] => none
    | c :: rest =>
      if c == '"' then
        match parseStringBody (rest.length + 1) rest [] with
        | some (s, rest2) => some (.str s, rest2)
        | none => none
      else if c == '[' then parseElems fuel rest []
      else if c == '{' then parseFields fuel rest []
      else if c == '-' then
        match parseNat rest with
        | some (n, rest2) => some (.num (-(n : Int)), rest2)
        | none => none
      else if c.isDigit then
        match parseNat (c :: rest) with
        | some (n, rest2) => some (.num (n : Int), rest2)
        | none => none
      else if (c :: rest).take 4 == "null".data then some (.null, (c :: rest).drop 4)
      else if (c :: rest).take 4 == "true".data then some (.bool true, (c :: rest).drop 4)
      else if (c :: rest).take 5 == "false".data then some (.bool false, (c :: rest).drop 5)
      else none

/-- Parse the elements of a JSON array after the opening bracket. -/
def parseElems (fuel : Nat) (cs : List Char) (acc : List Json) :
    Option (Json × List Char) :=
  match fuel with
  | 0 => none
  | fuel + 1 =>
    match skipWs cs with
    | ']' :: rest => if acc.isEmpty then some (.arr [], rest) else none
    | cs2 =>
      match parseValue fuel cs2 with
      | none => none
      | some (j, rest2) =>
        match skipWs rest2 with
        | ',' :: rest3 => parseElems fuel rest3 (j :: acc)
        | ']' :: rest3 => some (.arr (j :: acc).reverse, rest3)
        | _ => none

/-- Parse the members of a JSON object after the opening brace. -/
def parseFields (fuel : Nat) (cs : List Char) (acc : List (String × Json)) :
    Option (Json × List Char) :=
  match fuel with
  | 0 => none
  | fuel + 1 =>
    match skipWs cs with
    | '}' :: rest => if acc.isEmpty then some (.obj [], rest) else none
    | '"' :: rest =>
      match parseStringBody (rest.length + 1) rest [] with
      | none => none
      | some (k, rest2) =>
        match skipWs rest2 with
        | ':' :: rest3 =>
          match parseValue fuel rest3 with
          | none => none
          | some (v, rest4) =>
            match skipWs rest4 with
            | ',' :: rest5 => parseFields fuel rest5 ((k, v) :: acc)
            | '}' :: rest5 => some (.obj ((k, v) :: acc).reverse, rest5)
            | _ => none
        | _ => none
    | _ => none

end

/-- JavaScript `JSON.parse`: parse one JSON value and require only
whitespace after it; `none` models a thrown `SyntaxError`. -/
def parseJson (s : String) : Option Json :=
  match parseValue (2 * s.length + 8) s.data with
  | some (j, rest) => if skipWs rest = [] then some j else none
  | none => none

/-- Condition for the revival write `card.createdAt = new
Date(card.createdAt)` (source line 60) not to throw: the card must be an
object (a JSON array also qualifies, since property assignment on any
object succeeds).  On `null` or a primitive the assignment throws a
`TypeError` — the compiled module runs in strict mode.  The write itself
never throws on an object: `new Date` of any value is at worst an invalid
date. -/
def cardRevivable : Json → Bool
  | .obj _ => true
  | .arr _ => true
  | _ => false

/-- Condition for `list.cards.forEach` (source line 59) not to throw: the
list must be an object whose `cards` property is an array, and every card
must survive the revival write.  Nothing else about a list is inspected by
the load effect. -/
def listRevivable : Json → Bool
  | .obj fields =>
    match getField fields "cards" with
    | some (.arr cs) => cs.all cardRevivable
    | _ => false
  | _ => false

/-- Condition for `parsedBoard.lists.forEach` (source line 58) and the
nested loops not to throw: the parsed value must be an object whose `lists`
property is an array of revivable lists.  The load effect checks nothing
else about the snapshot. -/
def revivable : Json → Bool
  | .obj fields =>
    match getField fields "lists" with
    | some (.arr ls) => ls.all listRevivable
    | _ => false
  | _ => false

/-- Outcome of the load effect.  `raise` is an exception escaping the
effect (there is no try/catch in it).  A successful load stores the
revived snapshot into the board state: when the snapshot's fields fit the
typed `Board` shape this is `ok`; otherwise `okUntyped` carries the parsed
snapshot — the program performs no field validation, so such loads succeed
there, but a board with, say, a numeric title is not representable in the
typed model. -/
inductive LoadResult where
  | ok (b : Board)
  | okUntyped (j : Json)
  | raise (e : String)

/-- The load effect (source lines 53-65) as a function of the stored value:
`localStorage.getItem` yields `none` when the key is absent; a falsy saved
string (absent or empty) leaves the initial board in place; otherwise the
string is parsed — with no try/catch around `JSON.parse`, so invalid JSON
raises a `SyntaxError` — and the revival loops run, raising a `TypeError`
exactly when the lists/cards array structure is missing (`revivable`). -/
def loadBoard (stored : Option String) : LoadResult :=
  match stored with
  | none => .ok initialBoard
  | some s =>
    if s = "" then .ok initialBoard
    else
      match parseJson s with
      | none => .raise "SyntaxError: JSON.parse"
      | some j =>
        if revivable j then
          match decodeStoredBoard j with
          | .ok b => .ok b
          | .error _ => .okUntyped j
        else .raise "TypeError: forEach of undefined"

/-- On a list whose keys are distinct, `find?` by the key of a member
returns exactly that member. -/
theorem find?_key_eq_some {α β : Type} [DecidableEq β] (f : α → β) (a : α) :
    ∀ l : List α, (l.map f).Nodup → a ∈ l →
      l.find? (fun x => f x == f a) = some a := by
  intro l
  induction l with
  | nil => intro _ h; cases h
  | cons x xs ih =>
    intro hnd hmem
    rcases List.mem_cons.mp hmem with h | h
    · subst h
      exact List.find?_cons_of_pos xs (by simp)
    · have hfa : f a ∈ xs.map f := List.mem_map.mpr ⟨a, h, rfl⟩
      have hx : f x ≠ f a := by
        intro he
        rw [List.map_cons, List.nodup_cons] at hnd
        exact hnd.1 (he ▸ hfa)
      rw [List.find?_cons_of_neg xs (by simpa using hx)]
      exact ih (by rw [List.map_cons, List.nodup_cons] at hnd; exact hnd.2) h

/-- On a list whose keys are distinct, filtering out the key of a member
erases exactly that member. -/
theorem filter_key_ne_eq_erase {α β : Type} [DecidableEq α] [DecidableEq β]
    (f : α → β) (a : α) :
    ∀ l : List α, (l.map f).Nodup → a ∈ l →
      l.filter (fun x => f x != f a) = l.erase a := by
  intro l
  induction l with
  | nil => intro _ h; cases h
  | cons x xs ih =>
    intro hnd hmem
    rw [List.map_cons, List.nodup_cons] at hnd
    rcases List.mem_cons.mp hmem with h | h
    · subst h
      rw [List.filter_cons_of_neg (by simp), List.erase_cons_head]
      exact List.filter_eq_self.mpr fun y hy => by
        have : f y ≠ f a := fun he => hnd.1 (he ▸ List.mem_map.mpr ⟨y, hy, rfl⟩)
        simpa using this
    · have hfa : f a ∈ xs.map f := List.mem_map.mpr ⟨a, h, rfl⟩
      have hx : f x ≠ f a := fun he => hnd.1 (he ▸ hfa)
      have hxa : x ≠ a := fun he => hx (he ▸ rfl)
      rw [List.filter_cons_of_pos (by simpa using hx),
        List.erase_cons_tail (by simpa using hxa), ih hnd.2 h]

/-- `flatMap` is monotone with respect to the sublist order. -/
theorem flatMap_sublist_of_sublist {α β : Type} (f : α → List β) {s l : List α}
    (h : s.Sublist l) : (s.flatMap f).Sublist (l.flatMap f) := by
  induction h with
  | slnil => simp
  | cons a _ ih => simpa using ih.trans (List.sublist_append_right (f a) _)
  | cons₂ a _ ih => simpa using ih.append_left (f a)

/-- On a well-formed board every list's own card ids are distinct. -/
theorem WF_cards_nodup {b : Board} (h : WF b) :
    ∀ l ∈ b.lists, (l.cards.map Card.id).Nodup :=
  (List.nodup_flatMap.mp h.2).1

/-- On a well-formed board the card-id blocks of the lists are pairwise
disjoint. -/
theorem WF_blocks_pairwise {b : Board} (h : WF b) :
    List.Pairwise (List.Disjoint on fun l => l.cards.map Card.id) b.lists :=
  (List.nodup_flatMap.mp h.2).2

/-- On a well-formed board, two lists with different ids have disjoint card
ids. -/
theorem WF_disjoint_of_ne {b : Board} (h : WF b) :
    ∀ l₁ ∈ b.lists, ∀ l₂ ∈ b.lists, l₁.id ≠ l₂.id →
      ∀ x ∈ l₁.cards.map Card.id, x ∉ l₂.cards.map Card.id := by
  intro l₁ h₁ l₂ h₂ hne x hx
  have hp := WF_blocks_pairwise h
  have hsym : Symmetric (List.Disjoint on fun l : BList => l.cards.map Card.id) :=
    fun _ _ hd => hd.symm
  have hne' : l₁ ≠ l₂ := fun he => hne (he ▸ rfl)
  exact hp.forall hsym h₁ h₂ hne' hx

/-- A card id that occurs nowhere on the board occurs in no list of the
board. -/
theorem not_mem_block_of_not_mem_cardIds {b : Board} {x : String}
    (h : x ∉ cardIds b) {l : BList} (hl : l ∈ b.lists) :
    x ∉ l.cards.map Card.id := by
  intro hx
  exact h (List.mem_flatMap.mpr ⟨l, hl, hx⟩)

/-- Rewriting each list through an id-preserving function keeps the list
ids. -/
theorem listIds_map_eq {b : Board} {g : BList → BList}
    (hid : ∀ l, (g l).id = l.id) :
    listIds { b with lists := b.lists.map g } = listIds b := by
  unfold listIds
  simp only [List.map_map]
  exact List.map_congr_left fun a _ => hid a

/-- The card ids of a board after rewriting every list. -/
theorem cardIds_map_eq {b : Board} (g : BList → BList) :
    cardIds { b with lists := b.lists.map g } =
      b.lists.flatMap fun l => (g l).cards.map Card.id := by
  unfold cardIds
  exact List.flatMap_map g _ b.lists

/-- Master lemma: a per-list rewrite that preserves list ids, keeps every
rewritten card-id block duplicate-free and keeps blocks of distinct lists
disjoint preserves well-formedness. -/
theorem WF_map {b : Board} {g : BList → BList}
    (hid : ∀ l, (g l).id = l.id)
    (hnd : ∀ l ∈ b.lists, ((g l).cards.map Card.id).Nodup)
    (hdisj : ∀ l₁ ∈ b.lists, ∀ l₂ ∈ b.lists, l₁.id ≠ l₂.id →
      ∀ x ∈ (g l₁).cards.map Card.id, x ∉ (g l₂).cards.map Card.id)
    (h : WF b) : WF { b with lists := b.lists.map g } := by
  constructor
  · rw [listIds_map_eq hid]; exact h.1
  · show (cardIds { b with lists := b.lists.map g }).Nodup
    rw [cardIds_map_eq]
    refine List.nodup_flatMap.mpr ⟨hnd, ?_⟩
    have hids : List.Pairwise (fun l₁ l₂ : BList => l₁.id ≠ l₂.id) b.lists :=
      List.pairwise_map.mp (h.1 : List.Pairwise (· ≠ ·) (b.lists.map BList.id))
    exact List.Pairwise.imp_of_mem
      (fun ha hb hne => hdisj _ ha _ hb hne) hids

/-- Unfolding `moveCard` on the path where the source list and the card are
both found. -/
theorem moveCard_eq_of_found {b : Board} {cid src tgt : String} {sl : BList}
    {card : Card} (hne : src ≠ tgt)
    (h1 : b.lists.find? (fun l => l.id == src) = some sl)
    (h2 : sl.cards.find? (fun c => c.id == cid) = some card) :
    moveCard cid src tgt b =
      { b with lists := b.lists.map fun list =>
          if list.id = src then
            { list with cards := list.cards.filter fun c => c.id != cid }
          else if list.id = tgt then
            { list with cards := list.cards ++ [card] }
          else list } := by
  unfold moveCard
  rw [if_neg hne, h1, Option.some_bind, h2]

/-- A card id taken from a filtered block was in the unfiltered block and
differs from the filtered-out id. -/
theorem mem_filtered_block {l : BList} {cid x : String}
    (hx : x ∈ (l.cards.filter fun c => c.id != cid).map Card.id) :
    x ∈ l.cards.map Card.id ∧ x ≠ cid := by
  rcases List.mem_map.mp hx with ⟨c, hc, rfl⟩
  have h := List.mem_filter.mp hc
  exact ⟨List.mem_map.mpr ⟨c, h.1, rfl⟩, by simpa using h.2⟩

/-- `addCard` preserves well-formedness when the generated id is fresh. -/
theorem WF_addCard {b : Board} {lid t : String} {now : Int}
    (hfresh : toString now ∉ cardIds b) (h : WF b) : WF (addCard lid t now b) := by
  show WF { b with lists := b.lists.map fun list =>
    if list.id = lid then
      { list with cards := list.cards ++
        [{ id := toString now, title := t, description := none, createdAt := now }] }
    else list }
  refine WF_map (fun l => by by_cases hl : l.id = lid <;> simp [hl]) ?_ ?_ h
  · intro l hl
    by_cases hc : l.id = lid
    · rw [if_pos hc]
      simp only [List.map_append, List.map_cons, List.map_nil]
      refine List.nodup_append.mpr ⟨WF_cards_nodup h l hl, List.nodup_singleton _, ?_⟩
      intro y hy hy'
      rcases List.mem_singleton.mp hy' with rfl
      exact not_mem_block_of_not_mem_cardIds hfresh hl hy
    · rw [if_neg hc]
      exact WF_cards_nodup h l hl
  · intro l₁ h₁ l₂ h₂ hne x hx
    have hD := WF_disjoint_of_ne h l₁ h₁ l₂ h₂ hne
    by_cases c₁ : l₁.id = lid <;> by_cases c₂ : l₂.id = lid
    · exact absurd (c₁.trans c₂.symm) hne
    · rw [if_pos c₁] at hx
      rw [if_neg c₂]
      simp only [List.map_append, List.map_cons, List.map_nil, List.mem_append,
        List.mem_singleton] at hx
      rcases hx with hx | rfl
      · exact hD x hx
      · exact not_mem_block_of_not_mem_cardIds hfresh h₂
    · rw [if_neg c₁] at hx
      rw [if_pos c₂]
      simp only [List.map_append, List.map_cons, List.map_nil, List.mem_append,
        List.mem_singleton]
      push_neg
      refine ⟨hD x hx, ?_⟩
      rintro rfl
      exact not_mem_block_of_not_mem_cardIds hfresh h₁ hx
    · rw [if_neg c₁] at hx
      rw [if_neg c₂]
      exact hD x hx

/-- `deleteCard` preserves well-formedness. -/
theorem WF_deleteCard {b : Board} {lid cid : String} (h : WF b) :
    WF (deleteCard lid cid b) := by
  show WF { b with lists := b.lists.map fun list =>
    if list.id = lid then
      { list with cards := list.cards.filter fun card => card.id != cid }
    else list }
  refine WF_map (fun l => by by_cases hl : l.id = lid <;> simp [hl]) ?_ ?_ h
  · intro l hl
    by_cases hc : l.id = lid
    · rw [if_pos hc]
      exact (WF_cards_nodup h l hl).sublist ((List.filter_sublist _).map Card.id)
    · rw [if_neg hc]
      exact WF_cards_nodup h l hl
  · intro l₁ h₁ l₂ h₂ hne x hx
    have hD := WF_disjoint_of_ne h l₁ h₁ l₂ h₂ hne
    have hx' : x ∈ l₁.cards.map Card.id := by
      by_cases c₁ : l₁.id = lid
      · rw [if_pos c₁] at hx
        exact ((List.filter_sublist _).map Card.id).subset hx
      · rwa [if_neg c₁] at hx
    have hn₂ : x ∉ l₂.cards.map Card.id := hD x hx'
    by_cases c₂ : l₂.id = lid
    · rw [if_pos c₂]
      intro hx₂
      exact hn₂ (((List.filter_sublist _).map Card.id).subset hx₂)
    · rwa [if_neg c₂]

/-- `updateListTitle` preserves well-formedness. -/
theorem WF_updateListTitle {b : Board} {lid t : String} (h : WF b) :
    WF (updateListTitle lid t b) := by
  show WF { b with lists := b.lists.map fun list =>
    if list.id = lid then { list with title := t } else list }
  refine WF_map (fun l => by by_cases hl : l.id = lid <;> simp [hl]) ?_ ?_ h
  · intro l hl
    by_cases hc : l.id = lid <;> simp only [if_pos, if_neg, hc, if_true, if_false]
    · exact WF_cards_nodup h l hl
    · exact WF_cards_nodup h l hl
  · intro l₁ h₁ l₂ h₂ hne x hx
    have hD := WF_disjoint_of_ne h l₁ h₁ l₂ h₂ hne
    have hx' : x ∈ l₁.cards.map Card.id := by
      by_cases c₁ : l₁.id = lid
      · rwa [if_pos c₁] at hx
      · rwa [if_neg c₁] at hx
    by_cases c₂ : l₂.id = lid
    · rw [if_pos c₂]; exact hD x hx'
    · rw [if_neg c₂]; exact hD x hx'

/-- `deleteList` preserves well-formedness. -/
theorem WF_deleteList {b : Board} {lid : String} (h : WF b) :
    WF (deleteList lid b) := by
  constructor
  · exact h.1.sublist ((List.filter_sublist _).map BList.id)
  · exact h.2.sublist (flatMap_sublist_of_sublist _ (List.filter_sublist _))

/-- `addList` preserves well-formedness when the generated id is fresh. -/
theorem WF_addList {b : Board} {t : String} {now : Int}
    (hfresh : toString now ∉ listIds b) (h : WF b) : WF (addList t now b) := by
  unfold addList
  split
  · exact h
  · constructor
    · show (listIds { b with lists := b.lists ++
        [{ id := toString now, title := t, cards := [] }] }).Nodup
      unfold listIds
      simp only [List.map_append, List.map_cons, List.map_nil]
      refine List.nodup_append.mpr ⟨h.1, List.nodup_singleton _, ?_⟩
      intro y hy hy'
      rcases List.mem_singleton.mp hy' with rfl
      exact hfresh hy
    · show (cardIds { b with lists := b.lists ++
        [{ id := toString now, title := t, cards := [] }] }).Nodup
      unfold cardIds
      rw [List.flatMap_append]
      simpa using h.2


/-- `moveCard` preserves well-formedness. -/
theorem WF_moveCard {b : Board} {cid src tgt : String} (h : WF b) :
    WF (moveCard cid src tgt b) := by
  by_cases hst : src = tgt
  · unfold moveCard
    rw [if_pos hst]
    exact h
  · rcases hopt : (b.lists.find? fun list => list.id == src).bind
        (fun sourceList => sourceList.cards.find? fun c => c.id == cid) with _ | card
    · have hmv : moveCard cid src tgt b = b := by
        unfold moveCard
        rw [if_neg hst, hopt]
      rw [hmv]
      exact h
    · rcases Option.bind_eq_some.mp hopt with ⟨sl, hfind, hfindc⟩
      rw [moveCard_eq_of_found hst hfind hfindc]
      have hsl : sl ∈ b.lists := List.mem_of_find?_eq_some hfind
      have hslid : sl.id = src := by simpa using List.find?_some hfind
      have hcard : card ∈ sl.cards := List.mem_of_find?_eq_some hfindc
      have hcid : card.id = cid := by simpa using List.find?_some hfindc
      have Hsrc : ∀ l ∈ b.lists, l.id ≠ src → cid ∉ l.cards.map Card.id := by
        intro l hl hlne hmem
        have := WF_disjoint_of_ne h sl hsl l hl
          (by rw [hslid]; exact fun he => hlne he.symm)
        exact this cid (List.mem_map.mpr ⟨card, hcard, hcid⟩) hmem
      refine WF_map ?_ ?_ ?_ h
      · intro l
        by_cases h₁ : l.id = src
        · rw [if_pos h₁]
        · rw [if_neg h₁]
          by_cases h₂ : l.id = tgt
          · rw [if_pos h₂]
          · rw [if_neg h₂]
      · intro l hl
        by_cases h₁ : l.id = src
        · rw [if_pos h₁]
          exact (WF_cards_nodup h l hl).sublist ((List.filter_sublist _).map Card.id)
        · rw [if_neg h₁]
          by_cases h₂ : l.id = tgt
          · rw [if_pos h₂]
            simp only [List.map_append, List.map_cons, List.map_nil]
            refine List.nodup_append.mpr
              ⟨WF_cards_nodup h l hl, List.nodup_singleton _, ?_⟩
            intro y hy hy'
            rcases List.mem_singleton.mp hy' with rfl
            exact Hsrc l hl h₁ (hcid ▸ hy)
          · rw [if_neg h₂]
            exact WF_cards_nodup h l hl
      · intro l₁ h₁ l₂ h₂ hne x hx
        have hD := WF_disjoint_of_ne h l₁ h₁ l₂ h₂ hne
        have hx' : x ∈ l₁.cards.map Card.id ∧ (l₁.id = src → x ≠ cid) ∨
            x = cid ∧ l₁.id = tgt ∧ l₁.id ≠ src := by
          by_cases c₁ : l₁.id = src
          · rw [if_pos c₁] at hx
            have hm := mem_filtered_block hx
            exact Or.inl ⟨hm.1, fun _ => hm.2⟩
          · rw [if_neg c₁] at hx
            by_cases d₁ : l₁.id = tgt
            · rw [if_pos d₁] at hx
              simp only [List.map_append, List.map_cons, List.map_nil,
                List.mem_append, List.mem_singleton] at hx
              rcases hx with hx | rfl
              · exact Or.inl ⟨hx, fun hc => absurd hc c₁⟩
              · exact Or.inr ⟨hcid, d₁, c₁⟩
            · rw [if_neg d₁] at hx
              exact Or.inl ⟨hx, fun hc => absurd hc c₁⟩
        by_cases c₂ : l₂.id = src
        · rw [if_pos c₂]
          intro hx₂
          have hm₂ := mem_filtered_block hx₂
          rcases hx' with ⟨hx₁, _⟩ | ⟨hxc, _, _⟩
          · exact hD x hx₁ hm₂.1
          · exact hm₂.2 hxc
        · rw [if_neg c₂]
          by_cases d₂ : l₂.id = tgt
          · rw [if_pos d₂]
            simp only [List.map_append, List.map_cons, List.map_nil,
              List.mem_append, List.mem_singleton]
            push_neg
            rcases hx' with ⟨hx₁, hs₁⟩ | ⟨_, ht₁, _⟩
            · refine ⟨hD x hx₁, ?_⟩
              intro hxc
              rw [hcid] at hxc
              by_cases c₁ : l₁.id = src
              · exact hs₁ c₁ hxc
              · exact Hsrc l₁ h₁ c₁ (hxc ▸ hx₁)
            · exact absurd (ht₁.trans d₂.symm) hne
          · rw [if_neg d₂]
            rcases hx' with ⟨hx₁, _⟩ | ⟨hxc, _, c₁⟩
            · exact hD x hx₁
            · exact hxc ▸ Hsrc l₂ h₂ c₂

/-- Every single store operation preserves well-formedness as long as the
id it generates (if any) is fresh. -/
theorem WF_applyOp {o : Op} {b : Board} (hf : Fresh o b) (h : WF b) :
    WF (applyOp o b) := by
  cases o with
  | addCard listId title now => exact WF_addCard hf h
  | deleteCard listId cardId => exact WF_deleteCard h
  | moveCard cardId src tgt => exact WF_moveCard h
  | addList title now => exact WF_addList hf h
  | updateListTitle listId newTitle => exact WF_updateListTitle h
  | deleteList listId => exact WF_deleteList h

/-- A sequence of store operations, each generating fresh ids, preserves
well-formedness. -/
theorem WF_applyOps :
    ∀ (ops : List Op) (b : Board), WF b → FreshAlong ops b → WF (applyOps ops b)
  | [], _, h, _ => h
  | o :: rest, b, h, hf =>
    WF_applyOps rest (applyOp o b) (WF_applyOp hf.1 h) hf.2

/-- The initial board is well-formed. -/
theorem WF_initialBoard : WF initialBoard := by
  constructor <;> decide

/-- Decoding inverts encoding for a single card. -/
theorem decodeCard_cardToJson (c : Card) : decodeCard (cardToJson c) = .ok c := by
  cases c with
  | mk i t d ts => cases d <;> rfl

/-- Decoding inverts encoding for a sequence of cards. -/
theorem decodeCards_map (cs : List Card) :
    decodeCards (cs.map cardToJson) = .ok cs := by
  induction cs with
  | nil => rfl
  | cons c rest ih =>
    simp only [List.map_cons, decodeCards, decodeCard_cardToJson c, ih]

/-- Decoding inverts encoding for a single list. -/
theorem decodeList_listToJson (l : BList) : decodeList (listToJson l) = .ok l := by
  cases l with
  | mk i t cs =>
    show (match decodeCards (cs.map cardToJson) with
      | Except.ok cs' => Except.ok (BList.mk i t cs')
      | Except.error e => (Except.error e : Except String BList)) =
      Except.ok (BList.mk i t cs)
    rw [decodeCards_map]

/-- Decoding inverts encoding for a sequence of lists. -/
theorem decodeLists_map (ls : List BList) :
    decodeLists (ls.map listToJson) = .ok ls := by
  induction ls with
  | nil => rfl
  | cons l rest ih =>
    simp only [List.map_cons, decodeLists, decodeList_listToJson l, ih]

/-- C4: for every board, decoding the stored snapshot produced by saving
reproduces the board field-for-field — same board id and title, same lists
in the same order with the same ids and titles, same cards in the same
order with the same ids, titles and optional descriptions — and the
creation timestamps survive exactly at millisecond resolution (a JavaScript
`Date` is an integral millisecond count, so nothing finer exists to lose).
The string transport between `JSON.stringify` and `JSON.parse` is the
identity on JSON values, so the round trip is stated at the JSON-value
level. -/
theorem load_save_roundtrip (b : Board) :
    decodeStoredBoard (boardToJson b) = .ok b := by
  cases b with
  | mk i t ls =>
    show (match decodeLists (ls.map listToJson) with
      | Except.ok ls' => Except.ok (Board.mk i t ls')
      | Except.error e => (Except.error e : Except String Board)) =
      Except.ok (Board.mk i t ls)
    rw [decodeLists_map]

/-- C9: `moveCard` with equal source and target list ids returns the board
unchanged, for every board and all arguments. -/
theorem moveCard_same_source_target_noop (b : Board) (cardId listId : String) :
    moveCard cardId listId listId b = b := by
  unfold moveCard
  rw [if_pos rfl]

/-- C10: every store operation leaves the board's own `id` and `title`
fields unchanged; only the `lists` field is ever modified. -/
theorem store_ops_preserve_board_id_and_title (b : Board)
    (listId cardId sourceListId targetListId title : String) (now : Int) :
    ((addCard listId title now b).id = b.id ∧
      (addCard listId title now b).title = b.title) ∧
    ((deleteCard listId cardId b).id = b.id ∧
      (deleteCard listId cardId b).title = b.title) ∧
    ((moveCard cardId sourceListId targetListId b).id = b.id ∧
      (moveCard cardId sourceListId targetListId b).title = b.title) ∧
    ((addList title now b).id = b.id ∧ (addList title now b).title = b.title) ∧
    ((updateListTitle listId title b).id = b.id ∧
      (updateListTitle listId title b).title = b.title) ∧
    ((deleteList listId b).id = b.id ∧ (deleteList listId b).title = b.title) := by
  have hmv : (moveCard cardId sourceListId targetListId b).id = b.id ∧
      (moveCard cardId sourceListId targetListId b).title = b.title := by
    unfold moveCard
    split
    · exact ⟨rfl, rfl⟩
    · split
      · exact ⟨rfl, rfl⟩
      · exact ⟨rfl, rfl⟩
  have hal : (addList title now b).id = b.id ∧ (addList title now b).title = b.title := by
    unfold addList
    split
    · exact ⟨rfl, rfl⟩
    · exact ⟨rfl, rfl⟩
  exact ⟨⟨rfl, rfl⟩, ⟨rfl, rfl⟩, hmv, hal, ⟨rfl, rfl⟩, ⟨rfl, rfl⟩⟩

/-- C1: on a well-formed board, moving a card `C` that sits in list `S` to
a distinct existing list `T` yields a board where the list with `S`'s id
holds `S`'s cards with `C` erased (order otherwise unchanged), and the list
with `T`'s id holds `T`'s prior cards with `C` appended at the end. -/
theorem moveCard_removes_from_source_appends_to_target
    (b : Board) (S T : BList) (C : Card)
    (hWF : WF b) (hS : S ∈ b.lists) (hT : T ∈ b.lists) (hST : S.id ≠ T.id)
    (hC : C ∈ S.cards) :
    ∃ S' T', S' ∈ (moveCard C.id S.id T.id b).lists ∧
      T' ∈ (moveCard C.id S.id T.id b).lists ∧ S'.id = S.id ∧ T'.id = T.id ∧
      S'.cards = S.cards.erase C ∧ C ∉ S'.cards ∧ T'.cards = T.cards ++ [C] := by
  have hndS : (S.cards.map Card.id).Nodup := WF_cards_nodup hWF S hS
  have h1 : b.lists.find? (fun l => l.id == S.id) = some S :=
    find?_key_eq_some BList.id S b.lists hWF.1 hS
  have h2 : S.cards.find? (fun c => c.id == C.id) = some C :=
    find?_key_eq_some Card.id C S.cards hndS hC
  rw [moveCard_eq_of_found hST h1 h2]
  refine ⟨{ S with cards := S.cards.filter fun c => c.id != C.id },
    { T with cards := T.cards ++ [C] }, ?_, ?_, rfl, rfl, ?_, ?_, rfl⟩
  · refine List.mem_map.mpr ⟨S, hS, ?_⟩
    rw [if_pos rfl]
  · refine List.mem_map.mpr ⟨T, hT, ?_⟩
    rw [if_neg fun he => hST he.symm, if_pos rfl]
  · exact filter_key_ne_eq_erase Card.id C S.cards hndS hC
  · intro hmem
    have h := (List.mem_filter.mp hmem).2
    simp at h

/-- C1 witness: a concrete move between the first two default lists. -/
theorem moveCard_removes_from_source_appends_to_target_witness :
    ∃ S' T', S' ∈ (moveCard "7" "1" "2" (addCard "1" "x" 7 initialBoard)).lists ∧
      T' ∈ (moveCard "7" "1" "2" (addCard "1" "x" 7 initialBoard)).lists ∧
      S'.id = "1" ∧ T'.id = "2" ∧
      S'.cards = List.erase [Card.mk "7" "x" none 7] (Card.mk "7" "x" none 7) ∧
      Card.mk "7" "x" none 7 ∉ S'.cards ∧
      T'.cards = [] ++ [Card.mk "7" "x" none 7] :=
  moveCard_removes_from_source_appends_to_target
    (addCard "1" "x" 7 initialBoard)
    (BList.mk "1" "Por Hacer" [Card.mk "7" "x" none 7])
    (BList.mk "2" "En Progreso" []) (Card.mk "7" "x" none 7)
    (by constructor <;> decide) (by decide) (by decide) (by decide) (by decide)

/-- C2: on a well-formed board, moving a card `C` of list `S` to a target
id that matches no list deletes the card: `C` is absent from every list of
the resulting board, and the list with `S`'s id holds `S`'s cards with `C`
erased. -/
theorem moveCard_to_missing_target_loses_card
    (b : Board) (S : BList) (C : Card) (tid : String)
    (hWF : WF b) (hS : S ∈ b.lists) (hC : C ∈ S.cards)
    (hT : ∀ L ∈ b.lists, L.id ≠ tid) :
    (∀ L' ∈ (moveCard C.id S.id tid b).lists, C ∉ L'.cards) ∧
      ∃ S' ∈ (moveCard C.id S.id tid b).lists, S'.id = S.id ∧
        S'.cards = S.cards.erase C := by
  have hst : S.id ≠ tid := hT S hS
  have hndS : (S.cards.map Card.id).Nodup := WF_cards_nodup hWF S hS
  have h1 : b.lists.find? (fun l => l.id == S.id) = some S :=
    find?_key_eq_some BList.id S b.lists hWF.1 hS
  have h2 : S.cards.find? (fun c => c.id == C.id) = some C :=
    find?_key_eq_some Card.id C S.cards hndS hC
  rw [moveCard_eq_of_found hst h1 h2]
  constructor
  · intro L' hL' hmem
    rcases List.mem_map.mp hL' with ⟨l, hl, rfl⟩
    by_cases hc : l.id = S.id
    · rw [if_pos hc] at hmem
      have h := (List.mem_filter.mp hmem).2
      simp at h
    · rw [if_neg hc, if_neg (hT l hl)] at hmem
      have hD := WF_disjoint_of_ne hWF S hS l hl fun he => hc he.symm
      exact hD C.id (List.mem_map.mpr ⟨C, hC, rfl⟩) (List.mem_map.mpr ⟨C, hmem, rfl⟩)
  · refine ⟨{ S with cards := S.cards.filter fun c => c.id != C.id },
      List.mem_map.mpr ⟨S, hS, ?_⟩, rfl, ?_⟩
    · rw [if_pos rfl]
    · exact filter_key_ne_eq_erase Card.id C S.cards hndS hC

/-- C2 witness: moving the only card to the nonexistent list id `99` makes
it vanish from the whole board. -/
theorem moveCard_to_missing_target_loses_card_witness :
    (∀ L' ∈ (moveCard "7" "1" "99" (addCard "1" "x" 7 initialBoard)).lists,
      Card.mk "7" "x" none 7 ∉ L'.cards) ∧
      ∃ S' ∈ (moveCard "7" "1" "99" (addCard "1" "x" 7 initialBoard)).lists,
        S'.id = "1" ∧
        S'.cards = List.erase [Card.mk "7" "x" none 7] (Card.mk "7" "x" none 7) :=
  moveCard_to_missing_target_loses_card (addCard "1" "x" 7 initialBoard)
    (BList.mk "1" "Por Hacer" [Card.mk "7" "x" none 7]) (Card.mk "7" "x" none 7)
    "99" (by constructor <;> decide) (by decide) (by decide) (by decide)

/-- C8: on a well-formed board, deleting a list removes every list with its
id, none of its cards survives anywhere on the board, and deleting the same
id again changes nothing (idempotence). -/
theorem deleteList_removes_list_and_cards_idempotent
    (b : Board) (L : BList) (hWF : WF b) (hL : L ∈ b.lists) :
    (∀ L' ∈ (deleteList L.id b).lists, L'.id ≠ L.id) ∧
      (∀ C ∈ L.cards, ∀ L' ∈ (deleteList L.id b).lists, C ∉ L'.cards) ∧
      deleteList L.id (deleteList L.id b) = deleteList L.id b := by
  refine ⟨?_, ?_, ?_⟩
  · intro L' hL'
    have h := (List.mem_filter.mp hL').2
    simpa using h
  · intro C hC L' hL' hmem
    have h := List.mem_filter.mp hL'
    have hne : L'.id ≠ L.id := by simpa using h.2
    have hD := WF_disjoint_of_ne hWF L hL L' h.1 fun he => hne he.symm
    exact hD C.id (List.mem_map.mpr ⟨C, hC, rfl⟩) (List.mem_map.mpr ⟨C, hmem, rfl⟩)
  · simp [deleteList, List.filter_filter, Bool.and_self]

/-- C8 witness: deleting the first default list after adding it a card. -/
theorem deleteList_removes_list_and_cards_idempotent_witness :
    (∀ L' ∈ (deleteList "1" (addCard "1" "x" 7 initialBoard)).lists,
      L'.id ≠ "1") ∧
      (∀ C ∈ [Card.mk "7" "x" none 7],
        ∀ L' ∈ (deleteList "1" (addCard "1" "x" 7 initialBoard)).lists,
          C ∉ L'.cards) ∧
      deleteList "1" (deleteList "1" (addCard "1" "x" 7 initialBoard)) =
        deleteList "1" (addCard "1" "x" 7 initialBoard) :=
  deleteList_removes_list_and_cards_idempotent (addCard "1" "x" 7 initialBoard)
    (BList.mk "1" "Por Hacer" [Card.mk "7" "x" none 7]) (by constructor <;> decide)
    (by decide)

/-- C3 counterexample: the store operation `addCard` called with an empty
title does not leave the board unchanged — it appends a card whose title is
empty, because the store performs no title validation. -/
theorem addCard_empty_title_appends :
    addCard "1" "" 5 initialBoard ≠ initialBoard := by decide

/-- C3 amended: the empty-title rejection lives in the caller, not in the
store: `handleAddCard` with a title that trims to the empty string leaves
the board unchanged (the store's `addCard` is never reached). -/
theorem handleAddCard_empty_title_noop (b : Board) (listId title : String)
    (now : Int) (h : jsTrim title = "") :
    handleAddCard listId title now b = b := by
  unfold handleAddCard
  rw [if_pos h]

/-- C3 witness: a whitespace-only title is rejected by the caller. -/
theorem handleAddCard_empty_title_noop_witness :
    handleAddCard "1" "   " 7 initialBoard = initialBoard :=
  handleAddCard_empty_title_noop initialBoard "1" "   " 7 (by decide)

/-- C7 counterexample: the store operation `updateListTitle` called with an
empty title does not leave the list's title unchanged — it overwrites the
title with the empty string, because the store performs no validation. -/
theorem updateListTitle_empty_title_overwrites :
    updateListTitle "1" "" initialBoard ≠ initialBoard := by decide

/-- C7 amended: the empty-title rejection lives in the caller `saveTitle`:
a title trimming to the empty string leaves the board unchanged, while a
non-empty trimmed title replaces the matching list's title. -/
theorem saveTitle_empty_title_guard (b : Board) (listId t : String) :
    (jsTrim t = "" → saveTitle listId t b = b) ∧
      (jsTrim t ≠ "" → (saveTitle listId t b).lists =
        b.lists.map fun list =>
          if list.id = listId then { list with title := t } else list) := by
  constructor
  · intro h
    unfold saveTitle
    rw [if_pos h]
  · intro h
    unfold saveTitle updateListTitle
    rw [if_neg h]

/-- C7 witness: a whitespace-only edit is dropped, a real edit lands. -/
theorem saveTitle_empty_title_guard_witness :
    saveTitle "1" "  " initialBoard = initialBoard ∧
      (saveTitle "1" "Blocked" initialBoard).lists =
        initialBoard.lists.map fun list =>
          if list.id = "1" then { list with title := "Blocked" } else list :=
  ⟨(saveTitle_empty_title_guard initialBoard "1" "  ").1 (by decide),
    (saveTitle_empty_title_guard initialBoard "1" "Blocked").2 (by decide)⟩

/-- C5 counterexample: a stored string that is not valid JSON makes the
load effect throw (there is no try/catch around `JSON.parse`), so the load
operation does fail instead of falling back to the default board. -/
theorem loadBoard_invalid_json_errors :
    loadBoard (some ("oops")) = .raise ("SyntaxError: JSON.parse") := by rfl

/-- Unfolding `loadBoard` on the path where the stored string parses. -/
theorem loadBoard_eq_of_parsed {s : String} {j : Json}
    (hp : parseJson s = some j) :
    loadBoard (some s) =
      (if revivable j then
        match decodeStoredBoard j with
        | .ok b => LoadResult.ok b
        | .error _ => LoadResult.okUntyped j
      else .raise "TypeError: forEach of undefined") := by
  have hs : s ≠ "" := by
    intro h
    rw [h, show parseJson "" = none from rfl] at hp
    exact Option.noConfusion hp
  show (if s = "" then LoadResult.ok initialBoard
    else match parseJson s with
      | none => LoadResult.raise "SyntaxError: JSON.parse"
      | some j =>
        if revivable j then
          match decodeStoredBoard j with
          | .ok b => LoadResult.ok b
          | .error _ => LoadResult.okUntyped j
        else .raise "TypeError: forEach of undefined") = _
  rw [if_neg hs, hp]

/-- C5 amended: the fallback to the default board happens only when the
stored value is absent or the empty string (both falsy); a non-empty stored
string that fails to parse as JSON, or whose parsed value does not expose
the lists/cards array structure, makes the load effect raise an uncaught
exception instead of falling back; and when that structure is present the
load succeeds without raising, whatever the remaining fields hold — the
program validates nothing else. -/
theorem loadBoard_fallback_and_error :
    loadBoard none = .ok initialBoard ∧
      loadBoard (some ("")) = .ok initialBoard ∧
      (∀ s : String, s ≠ "" → parseJson s = none →
        loadBoard (some s) = .raise ("SyntaxError: JSON.parse")) ∧
      (∀ (s : String) (j : Json), parseJson s = some j → revivable j = false →
        loadBoard (some s) = .raise ("TypeError: forEach of undefined")) ∧
      (∀ (s : String) (j : Json), parseJson s = some j → revivable j = true →
        ∀ e, loadBoard (some s) ≠ .raise e) := by
  refine ⟨rfl, rfl, ?_, ?_, ?_⟩
  · intro s hs hp
    show (if s = "" then LoadResult.ok initialBoard
      else match parseJson s with
        | none => LoadResult.raise "SyntaxError: JSON.parse"
        | some j =>
          if revivable j then
            match decodeStoredBoard j with
            | .ok b => LoadResult.ok b
            | .error _ => LoadResult.okUntyped j
          else .raise "TypeError: forEach of undefined") =
      LoadResult.raise "SyntaxError: JSON.parse"
    rw [if_neg hs, hp]
  · intro s j hp hr
    rw [loadBoard_eq_of_parsed hp,
      if_neg (by rw [hr]; exact Bool.false_ne_true)]
  · intro s j hp hr e
    rw [loadBoard_eq_of_parsed hp, if_pos hr]
    cases hd : decodeStoredBoard j <;> intro hcon <;> cases hcon

/-- C5 witness: concrete stored strings — an unparseable one raises, a
parseable one without the array structure raises, and a minimal snapshot
with an empty `lists` array loads without raising even though it carries
no board id or title. -/
theorem loadBoard_fallback_and_error_witness :
    loadBoard (some ("nope")) = .raise ("SyntaxError: JSON.parse") ∧
      loadBoard (some ("42")) = .raise ("TypeError: forEach of undefined") ∧
      ∀ e, loadBoard (some ("\x7b\"lists\":[]\x7d")) ≠ .raise e :=
  ⟨loadBoard_fallback_and_error.2.2.1 "nope" (by decide) (by rfl),
    loadBoard_fallback_and_error.2.2.2.1 "42" (Json.num 42) (by rfl) (by rfl),
    loadBoard_fallback_and_error.2.2.2.2 "\x7b\"lists\":[]\x7d"
      (Json.obj [("lists", Json.arr [])]) (by rfl) (by rfl)⟩

/-- C6 counterexample: two `addCard` calls in the same millisecond assign
the same identifier (`Date.now().toString()`), so a board with duplicate
card ids is reachable from the initial board by store operations. -/
theorem duplicate_card_ids_same_millisecond :
    ¬ (cardIds (applyOps [Op.addCard "1" "a" 5, Op.addCard "1" "b" 5]
      initialBoard)).Nodup := by decide

/-- C6 amended: card identifiers are pairwise distinct on every board
reachable from the initial board, provided each `addCard` runs at a clock
value whose string form is not an existing card id and each `addList` at
one whose string form is not an existing list id (in particular no two
`addCard` calls in the same millisecond). -/
theorem cardIds_nodup_of_fresh_ops (ops : List Op)
    (h : FreshAlong ops initialBoard) :
    (cardIds (applyOps ops initialBoard)).Nodup :=
  (WF_applyOps ops initialBoard WF_initialBoard h).2

/-- C6 witness: two additions at distinct clock values keep ids unique. -/
theorem cardIds_nodup_of_fresh_ops_witness :
    (cardIds (applyOps [Op.addCard "1" "a" 5, Op.addCard "1" "b" 6]
      initialBoard)).Nodup :=
  cardIds_nodup_of_fresh_ops [Op.addCard "1" "a" 5, Op.addCard "1" "b" 6]
    ⟨(by decide : toString (5 : Int) ∉ cardIds initialBoard),
      (by decide : toString (6 : Int) ∉
        cardIds (applyOp (Op.addCard "1" "a" 5) initialBoard)), trivial⟩
